import Mathlib

/-!
Shallow embedding of `src/utils/compute_frequencies.py` (gnomad_methods).

The Python module issues lazy Hail expressions; we embed the expression
semantics directly: Hail arrays become `List`, Hail structs become Lean
structures, Hail dicts (the `freq_meta` dictionaries) become association
lists with unique keys, missing values become `Option`, and floating-point
allele frequencies become `ℚ` (the code only ever divides, compares and
sorts them). `hl.sorted` is a stable sort, embedded as insertion sort.
Python-level failures (a missing required argument, iterating `None`) are
embedded as `Except` errors raised at the corresponding point of the
control flow.
-/

namespace GnomadFreq

/-- A Hail dict used as frequency metadata (e.g. `{'group': 'adj', 'pop': 'nfe'}`):
an association list of string keys to string values; all dicts built by this
module have unique keys. -/
abbrev Meta := List (String × String)

/-- `d.get(k)` on a Hail dict: the value at key `k`, missing when the key is absent. -/
def metaGet (m : Meta) (k : String) : Option String :=
  (m.find? (fun p => p.1 == k)).map (fun p => p.2)

/-- `d.contains(k)` on a Hail dict. -/
def metaContains (m : Meta) (k : String) : Bool :=
  m.any (fun p => p.1 == k)

/-- `d.size()` on a Hail dict (keys are unique in all dicts built by this module). -/
def metaSize (m : Meta) : Nat := m.length

/-- An element of the `freq` array produced by `get_freq_expressions`: call
statistics already specialised to the single non-reference allele of a
bi-allelic site (`AC`, `AF`, `homozygote_count` are scalars, `AN` the allele
number). -/
structure CallStatsBi where
  AC : Nat
  AF : ℚ
  AN : Nat
  homozygote_count : Nat
deriving Repr, DecidableEq

/-- The struct returned by `popmax_expr`. -/
structure PopmaxStruct where
  AC : Nat
  AF : ℚ
  AN : Nat
  homozygote_count : Nat
  pop : Option String
deriving Repr, DecidableEq

/-- `pops_to_use.contains(f.meta.get('pop'))`: in Hail `get` of an absent key is
missing and `contains` of missing is missing, which the enclosing filter
treats as false. -/
def popIn (populations : List String) (m : Meta) : Bool :=
  match metaGet m "pop" with
  | some p => populations.contains p
  | none => false

/-- The filter predicate inside `popmax_expr` (compute_frequencies.py lines 36-40). -/
def popmaxKeep (populations : List String) (f : CallStatsBi × Meta) : Bool :=
  (metaSize f.2 == 2) && (metaGet f.2 "group" == some "adj") &&
    popIn populations f.2 && (0 < f.1.AC)

/-- `hl.sorted(l, key=k, reverse=True)`: stable sort by `k` in descending order. -/
def sortByDescKey {α : Type} (key : α → ℚ) (l : List α) : List α :=
  List.insertionSort (fun a b => key b ≤ key a) l

/-- The zipped-and-filtered frequency entries `popmax_expr` selects among. -/
def popmaxEligible (freq : List CallStatsBi) (freq_meta : List Meta)
    (populations : List String) : List (CallStatsBi × Meta) :=
  (freq.zip freq_meta).filter (popmaxKeep populations)

/-- `popmax_expr` (compute_frequencies.py lines 24-51): zip `freq` with
`freq_meta`, keep the size-2 `adj` entries of an allowed population with
positive `AC`, sort by `AF` descending, and return the head as a struct
(missing when no entry survives the filter). -/
def popmax_expr (freq : List CallStatsBi) (freq_meta : List Meta)
    (populations : List String) : Option PopmaxStruct :=
  let sorted_freqs := sortByDescKey (fun x => x.1.AF)
    (popmaxEligible freq freq_meta populations)
  match sorted_freqs with
  | [] => none
  | f :: _ => some { AC := f.1.AC, AF := f.1.AF, AN := f.1.AN,
                     homozygote_count := f.1.homozygote_count,
                     pop := metaGet f.2 "pop" }

theorem sortByDescKey_perm {α : Type} (key : α → ℚ) (l : List α) :
    (sortByDescKey key l).Perm l :=
  List.perm_insertionSort _ l

theorem sortByDescKey_sorted {α : Type} (key : α → ℚ) (l : List α) :
    (sortByDescKey key l).Sorted (fun a b => key b ≤ key a) := by
  have htot : IsTotal α (fun a b => key b ≤ key a) :=
    ⟨fun a b => le_total (key b) (key a)⟩
  have htrans : IsTrans α (fun a b => key b ≤ key a) :=
    ⟨fun _ _ _ hab hbc => le_trans hbc hab⟩
  exact List.sorted_insertionSort _ l

theorem popIn_iff (populations : List String) (m : Meta) :
    popIn populations m = true ↔
      ∃ p, metaGet m "pop" = some p ∧ p ∈ populations := by
  unfold popIn
  cases h : metaGet m "pop" with
  | none => simp [h]
  | some p => simp [h, List.elem_iff]

theorem popmaxKeep_iff (populations : List String) (f : CallStatsBi × Meta) :
    popmaxKeep populations f = true ↔
      metaSize f.2 = 2 ∧ metaGet f.2 "group" = some "adj" ∧
      (∃ p, metaGet f.2 "pop" = some p ∧ p ∈ populations) ∧ 0 < f.1.AC := by
  unfold popmaxKeep
  rw [Bool.and_eq_true, Bool.and_eq_true, Bool.and_eq_true]
  rw [popIn_iff]
  simp [and_assoc]

/-- C1: `popmax_expr` selects among exactly the zipped freq/meta entries whose
meta has size 2, group `adj`, an allowed `pop`, and positive `AC`, the entry
with the highest `AF` — the head of the stable descending sort by `AF` — and
returns its `AC`, `AF`, `AN`, `homozygote_count` and `pop` (missing when no
entry qualifies). -/
theorem popmax_expr_spec (freq : List CallStatsBi) (freq_meta : List Meta)
    (populations : List String) :
    (∀ x, x ∈ popmaxEligible freq freq_meta populations ↔
      x ∈ freq.zip freq_meta ∧ metaSize x.2 = 2 ∧
      metaGet x.2 "group" = some "adj" ∧
      (∃ p, metaGet x.2 "pop" = some p ∧ p ∈ populations) ∧ 0 < x.1.AC) ∧
    (popmax_expr freq freq_meta populations = none ↔
      popmaxEligible freq freq_meta populations = []) ∧
    (∀ s, popmax_expr freq freq_meta populations = some s →
      ∃ f, (sortByDescKey (fun x => x.1.AF)
              (popmaxEligible freq freq_meta populations)).head? = some f ∧
        f ∈ popmaxEligible freq freq_meta populations ∧
        (∀ g ∈ popmaxEligible freq freq_meta populations, g.1.AF ≤ f.1.AF) ∧
        s.AC = f.1.AC ∧ s.AF = f.1.AF ∧ s.AN = f.1.AN ∧
        s.homozygote_count = f.1.homozygote_count ∧
        s.pop = metaGet f.2 "pop") := by
  refine ⟨?_, ?_, ?_⟩
  · intro x
    simp only [popmaxEligible, List.mem_filter, popmaxKeep_iff, and_assoc]
  · cases h : sortByDescKey (fun x => x.1.AF)
        (popmaxEligible freq freq_meta populations) with
    | nil =>
      have hperm := sortByDescKey_perm (fun x => x.1.AF)
        (popmaxEligible freq freq_meta populations)
      rw [h] at hperm
      have hnil : popmaxEligible freq freq_meta populations = [] :=
        hperm.symm.eq_nil
      have hpm : popmax_expr freq freq_meta populations = none := by
        simp [popmax_expr, h]
      rw [hpm, hnil]
      simp
    | cons f t =>
      have hperm := sortByDescKey_perm (fun x => x.1.AF)
        (popmaxEligible freq freq_meta populations)
      rw [h] at hperm
      constructor
      · intro habs
        simp [popmax_expr, h] at habs
      · intro hnil
        rw [hnil] at hperm
        exact absurd hperm.eq_nil (by simp)
  · intro s hs
    cases h : sortByDescKey (fun x => x.1.AF)
        (popmaxEligible freq freq_meta populations) with
    | nil =>
      simp [popmax_expr, h] at hs
    | cons f t =>
      have hperm := sortByDescKey_perm (fun x => x.1.AF)
        (popmaxEligible freq freq_meta populations)
      have hsorted := sortByDescKey_sorted (fun x => x.1.AF)
        (popmaxEligible freq freq_meta populations)
      rw [h] at hperm hsorted
      have hsval : s = ⟨f.1.AC, f.1.AF, f.1.AN, f.1.homozygote_count,
          metaGet f.2 "pop"⟩ := by
        simp [popmax_expr, h] at hs
        exact hs.symm
      refine ⟨f, by simp [h], hperm.subset (List.mem_cons_self f t), ?_,
        by rw [hsval], by rw [hsval], by rw [hsval], by rw [hsval],
        by rw [hsval]⟩
      intro g hg
      have hgmem : g ∈ f :: t := (hperm.mem_iff).2 hg
      rcases List.mem_cons.1 hgmem with hgf | hgt
      · rw [hgf]
      · exact List.rel_of_sorted_cons hsorted g hgt

/-- The one locus property the module uses: `locus.in_autosome_or_par()`. -/
structure Locus where
  in_autosome_or_par : Bool
deriving Repr, DecidableEq

/-- A struct of the array returned by `faf_expr`. -/
structure FafStruct where
  meta : Meta
  faf95 : ℚ
  faf99 : ℚ
deriving Repr, DecidableEq

/-- The filter predicate inside `faf_expr` (compute_frequencies.py lines 115-121). -/
def fafKeep (populations : List String) (locus : Locus)
    (f : CallStatsBi × Meta) : Bool :=
  ((metaSize f.2 == 1) && (metaGet f.2 "group" == some "adj")) ||
  ((metaSize f.2 == 2) && (metaGet f.2 "group" == some "adj") &&
    popIn populations f.2) ||
  (!locus.in_autosome_or_par &&
    (((metaSize f.2 == 2) && (metaGet f.2 "group" == some "adj") &&
       metaContains f.2 "sex") ||
     ((metaSize f.2 == 3) && (metaGet f.2 "group" == some "adj") &&
       popIn populations f.2 && metaContains f.2 "sex")))

/-- The zipped freq/meta entries `faf_expr` keeps. -/
def fafEligible (freq : List CallStatsBi) (freq_meta : List Meta)
    (locus : Locus) (populations : List String) : List (CallStatsBi × Meta) :=
  (freq.zip freq_meta).filter (fafKeep populations locus)

/-- `faf_expr` (compute_frequencies.py lines 102-126).
`hl.experimental.filtering_allele_frequency` is a numerical routine of the
external engine, not code of this repository, so it enters as the parameter
`fafFn`: `fafFn ac an conf` stands for `filtering_allele_frequency(AC, AN, conf)`. -/
def faf_expr (fafFn : Nat → Nat → ℚ → ℚ) (freq : List CallStatsBi)
    (freq_meta : List Meta) (locus : Locus) (populations : List String) :
    List FafStruct :=
  (fafEligible freq freq_meta locus populations).map
    (fun f => { meta := f.2, faf95 := fafFn f.1.AC f.1.AN (95/100),
                faf99 := fafFn f.1.AC f.1.AN (99/100) })

theorem metaContains_iff (m : Meta) (k : String) :
    metaContains m k = true ↔ ∃ v, metaGet m k = some v := by
  induction m with
  | nil => simp [metaContains, metaGet]
  | cons p rest ih =>
    cases hk : (p.1 == k) with
    | true =>
      simp [metaContains, metaGet, List.find?_cons, hk]
    | false =>
      have h1 : metaContains (p :: rest) k = metaContains rest k := by
        simp [metaContains, hk]
      have h2 : metaGet (p :: rest) k = metaGet rest k := by
        simp [metaGet, List.find?_cons, hk]
      rw [h1, h2]
      exact ih

theorem fafKeep_iff (populations : List String) (locus : Locus)
    (f : CallStatsBi × Meta) :
    fafKeep populations locus f = true ↔
      (metaSize f.2 = 1 ∧ metaGet f.2 "group" = some "adj") ∨
      (metaSize f.2 = 2 ∧ metaGet f.2 "group" = some "adj" ∧
        ∃ p, metaGet f.2 "pop" = some p ∧ p ∈ populations) ∨
      (locus.in_autosome_or_par = false ∧
        ((metaSize f.2 = 2 ∧ metaGet f.2 "group" = some "adj" ∧
           ∃ v, metaGet f.2 "sex" = some v) ∨
         (metaSize f.2 = 3 ∧ metaGet f.2 "group" = some "adj" ∧
           (∃ p, metaGet f.2 "pop" = some p ∧ p ∈ populations) ∧
           ∃ v, metaGet f.2 "sex" = some v))) := by
  unfold fafKeep
  simp only [Bool.or_eq_true, Bool.and_eq_true, Bool.not_eq_true',
    beq_iff_eq, popIn_iff, metaContains_iff, and_assoc]
  rw [or_assoc]

/-- C3: `faf_expr` returns exactly one struct per eligible group — the
size-1 global `adj` group, the size-2 `adj` groups with an allowed `pop`,
and, only when the locus is not in an autosome or PAR, the `adj` groups
carrying a `sex` key (size 2, or size 3 with an allowed `pop`) — each struct
holding the group's meta together with the filtering allele frequency of the
group's `AC` and `AN` at confidence 0.95 and 0.99. -/
theorem faf_expr_spec (fafFn : Nat → Nat → ℚ → ℚ) (freq : List CallStatsBi)
    (freq_meta : List Meta) (locus : Locus) (populations : List String) :
    faf_expr fafFn freq freq_meta locus populations =
      (fafEligible freq freq_meta locus populations).map
        (fun f => { meta := f.2, faf95 := fafFn f.1.AC f.1.AN (95/100),
                    faf99 := fafFn f.1.AC f.1.AN (99/100) }) ∧
    (∀ x, x ∈ fafEligible freq freq_meta locus populations ↔
      x ∈ freq.zip freq_meta ∧
      ((metaSize x.2 = 1 ∧ metaGet x.2 "group" = some "adj") ∨
       (metaSize x.2 = 2 ∧ metaGet x.2 "group" = some "adj" ∧
         ∃ p, metaGet x.2 "pop" = some p ∧ p ∈ populations) ∨
       (locus.in_autosome_or_par = false ∧
         ((metaSize x.2 = 2 ∧ metaGet x.2 "group" = some "adj" ∧
            ∃ v, metaGet x.2 "sex" = some v) ∨
          (metaSize x.2 = 3 ∧ metaGet x.2 "group" = some "adj" ∧
            (∃ p, metaGet x.2 "pop" = some p ∧ p ∈ populations) ∧
            ∃ v, metaGet x.2 "sex" = some v))))) := by
  refine ⟨rfl, ?_⟩
  intro x
  rw [fafEligible, List.mem_filter, fafKeep_iff]

/-- A diploid genotype call: the two allele indices, missing when not called. -/
abbrev GT := Option (Nat × Nat)

/-- The result of `hl.agg.call_stats(gt, alleles)`: per-allele allele counts
`AC`, per-allele frequencies `AF = AC / AN`, total called alleles `AN`, and
per-allele homozygote counts (missing genotypes are skipped). -/
structure CallStatsRaw where
  AC : List Nat
  AF : List ℚ
  AN : Nat
  homozygote_count : List Nat
deriving Repr, DecidableEq

/-- How many copies of allele `j` the diploid call `g` carries. -/
def countAllele (j : Nat) (g : Nat × Nat) : Nat :=
  (if g.1 = j then 1 else 0) + (if g.2 = j then 1 else 0)

/-- `hl.agg.call_stats(gt, alleles)` over a bag of genotypes at a site with
`nAlleles` alleles. -/
def call_stats (nAlleles : Nat) (gts : List GT) : CallStatsRaw :=
  let called := gts.filterMap id
  let an := 2 * called.length
  let ac := (List.range nAlleles).map (fun j => (called.map (countAllele j)).sum)
  { AC := ac,
    AF := ac.map (fun c => (c : ℚ) / (an : ℚ)),
    AN := an,
    homozygote_count := (List.range nAlleles).map
      (fun j => called.countP (fun g => g.1 == j && g.2 == j)) }

/-- One element of a `project_max` array: per-project call statistics with
`AC`, `AF`, `homozygote_count` narrowed to [reference value, allele value]
and the project attached (`AN` kept whole). -/
structure ProjectMaxEntry where
  AC : List Nat
  AF : List ℚ
  AN : Nat
  homozygote_count : List Nat
  project : String
deriving Repr, DecidableEq

/-- `hl.array(hl.agg.group_by(project_expr, hl.agg.call_stats(gt, alleles)))`
(line 76): per project, the call statistics of that project's entries (Hail's
dict-to-array order is unspecified; one order is fixed here). -/
def project_cs (entries : List (String × GT)) (nAlleles : Nat) :
    List (String × CallStatsRaw) :=
  (entries.map Prod.fst).dedup.map
    (fun p => (p, call_stats nAlleles
      ((entries.filter (fun e => e.1 == p)).map Prod.snd)))

/-- The annotation step of `project_max_expr` (lines 91-96). -/
def projectAnnotate (ai : Nat) (x : String × CallStatsRaw) : ProjectMaxEntry :=
  { AC := [x.2.AC.getD 0 0, x.2.AC.getD ai 0],
    AF := [x.2.AF.getD 0 0, x.2.AF.getD ai 0],
    AN := x.2.AN,
    homozygote_count := [x.2.homozygote_count.getD 0 0,
      x.2.homozygote_count.getD ai 0],
    project := x.1 }

/-- The per-project stats with `AF[ai] > 0` (lines 82-85). -/
def projectEligible (entries : List (String × GT)) (nAlleles ai : Nat) :
    List (String × CallStatsRaw) :=
  (project_cs entries nAlleles).filter (fun x => decide (0 < x.2.AF.getD ai 0))

/-- Lines 81-89 for one allele index: eligible projects sorted by `AF[ai]`
descending (the source sorts ascending by `-AF[ai]`, the same order). -/
def projectSorted (entries : List (String × GT)) (nAlleles ai : Nat) :
    List (String × CallStatsRaw) :=
  sortByDescKey (fun x => x.2.AF.getD ai 0) (projectEligible entries nAlleles ai)

/-- Lines 81-97 for one allele index: the top `n_projects` eligible projects,
annotated. -/
def projectTop (entries : List (String × GT)) (nAlleles ai n_projects : Nat) :
    List ProjectMaxEntry :=
  ((projectSorted entries nAlleles ai).take n_projects).map (projectAnnotate ai)

/-- `project_max_expr` (compute_frequencies.py lines 54-99): missing at sites
with fewer than two alleles; otherwise one `projectTop` list per non-reference
allele index `1 .. n_alleles - 1`. -/
def project_max_expr (entries : List (String × GT)) (alleles : List String)
    (n_projects : Nat) : Option (List (List ProjectMaxEntry)) :=
  let n_alleles := alleles.length
  if 1 < n_alleles then
    some ((List.range' 1 (n_alleles - 1)).map
      (fun ai => projectTop entries n_alleles ai n_projects))
  else none

theorem projectEligible_mem (entries : List (String × GT)) (nAlleles ai : Nat)
    (x : String × CallStatsRaw) :
    x ∈ projectEligible entries nAlleles ai ↔
      x ∈ project_cs entries nAlleles ∧ 0 < x.2.AF.getD ai 0 := by
  simp [projectEligible, List.mem_filter]

/-- C4: `project_max_expr` is missing for sites with fewer than two alleles;
otherwise it returns, for each non-reference allele index `ai = k + 1`, the
per-project call statistics restricted to projects with `AF[ai] > 0`, sorted
by that `AF` in decreasing order, truncated to the top `n_projects`, with
`AC`, `AF`, `homozygote_count` replaced by [reference value, allele value]
and the project attached; every dropped eligible project has `AF[ai]` no
larger than any kept one. -/
theorem project_max_expr_spec (entries : List (String × GT))
    (alleles : List String) (n_projects : Nat) :
    (project_max_expr entries alleles n_projects = none ↔
      alleles.length ≤ 1) ∧
    (∀ ls, project_max_expr entries alleles n_projects = some ls →
      ls.length = alleles.length - 1 ∧
      ∀ k, k < ls.length →
        ls[k]? = some (projectTop entries alleles.length (k + 1) n_projects)) ∧
    (∀ ai,
      (projectTop entries alleles.length ai n_projects).length ≤ n_projects ∧
      (∀ y ∈ projectTop entries alleles.length ai n_projects,
        ∃ x, x ∈ project_cs entries alleles.length ∧ 0 < x.2.AF.getD ai 0 ∧
          y = projectAnnotate ai x) ∧
      (projectTop entries alleles.length ai n_projects).Sorted
        (fun a b => b.AF.getD 1 0 ≤ a.AF.getD 1 0) ∧
      (∀ a ∈ (projectSorted entries alleles.length ai).take n_projects,
       ∀ b ∈ (projectSorted entries alleles.length ai).drop n_projects,
         b.2.AF.getD ai 0 ≤ a.2.AF.getD ai 0)) := by
  refine ⟨?_, ?_, ?_⟩
  · by_cases h : 1 < alleles.length
    · simp only [project_max_expr, if_pos h]
      constructor
      · intro habs
        exact absurd habs (by simp)
      · intro hle
        omega
    · simp only [project_max_expr, if_neg h]
      constructor
      · intro _
        omega
      · intro _
        trivial
  · intro ls hls
    by_cases h : 1 < alleles.length
    · simp only [project_max_expr, if_pos h] at hls
      injection hls with hls
      subst hls
      refine ⟨by simp [List.length_range'], ?_⟩
      intro k hk
      rw [List.length_map, List.length_range'] at hk
      rw [List.getElem?_map, List.getElem?_range' 1 1 hk]
      simp [Nat.add_comm]
    · simp [project_max_expr, if_neg h] at hls
  · intro ai
    refine ⟨?_, ?_, ?_, ?_⟩
    · rw [projectTop, List.length_map, List.length_take]
      exact min_le_left _ _
    · intro y hy
      rw [projectTop, List.mem_map] at hy
      obtain ⟨x, hx, hxy⟩ := hy
      have hxs : x ∈ projectSorted entries alleles.length ai :=
        List.take_subset _ _ hx
      have hxe : x ∈ projectEligible entries alleles.length ai :=
        (sortByDescKey_perm _ _).subset hxs
      rw [projectEligible_mem] at hxe
      exact ⟨x, hxe.1, hxe.2, hxy.symm⟩
    · refine List.pairwise_map.2 ?_
      refine List.Pairwise.sublist (List.take_sublist _ _) ?_
      exact sortByDescKey_sorted _ _
    · have hp := sortByDescKey_sorted (fun x => x.2.AF.getD ai 0)
        (projectEligible entries alleles.length ai)
      rw [List.Sorted, ← List.take_append_drop n_projects
        (sortByDescKey (fun x => x.2.AF.getD ai 0)
          (projectEligible entries alleles.length ai)),
        List.pairwise_append] at hp
      intro a ha b hb
      exact hp.2.2 a ha b hb

/-- Per-sample metadata (`mt.meta`): the fields compute_frequencies.py reads. -/
structure SampleMeta where
  pop : Option String
  sex : Option String
  subpop : Option String
  qc_platform : Option String
  project_id : String
  age : Option ℚ
deriving Repr, DecidableEq

/-- A column of the MatrixTable: the sample key `s` and its metadata. -/
structure Sample where
  s : String
  meta : SampleMeta
deriving Repr, DecidableEq

/-- One genotype entry of the matrix: the call and the `adj` quality flag. -/
structure Entry where
  GT : GT
  adj : Bool
deriving Repr, DecidableEq

/-- A row of the MatrixTable: locus, alleles, and one entry per column,
aligned with the column list. -/
structure Variant where
  locus : Locus
  alleles : List String
  entries : List Entry
deriving Repr, DecidableEq

/-- The input MatrixTable: columns (samples) and rows (variants). -/
structure MatrixTable where
  cols : List Sample
  rows : List Variant
deriving Repr, DecidableEq

/-- The `downsampling` struct `_generate_downsamplings_cumulative` annotates
onto each column. -/
structure Downsampling where
  global_idx : Nat
  pop_idx : Nat
deriving Repr, DecidableEq

/-- `collections.Counter` over a list: each distinct value with its count. -/
def counterOf {α : Type} [DecidableEq α] (l : List α) : List (α × Nat) :=
  l.dedup.map (fun x => (x, l.count x))

/-- `sorted` on a list of integers (ascending). -/
def sortNatAsc (l : List Nat) : List Nat :=
  List.insertionSort (fun a b => a ≤ b) l

/-- `ht.meta.pop == pop` for a Counter key: comparing with a missing value
yields missing, which `filter` treats as false. -/
def popKeyMatches (key : Option String) (c : Sample) : Bool :=
  match key with
  | some p => c.meta.pop == some p
  | none => false

/-- `ht.annotate(r=hl.rand_unif(0, 1)); ht.order_by(ht.r)`: the random draw
enters as the parameter `r` (one value per sample key); ordering by it is a
stable ascending sort. -/
def orderByR (r : String → ℚ) (cols : List Sample) : List Sample :=
  List.insertionSort (fun a b => r a.s ≤ r b.s) cols

/-- One row of `global_ht` (lines 10-20): a sample, its `global_idx` from
`add_index` on the randomly ordered table, and its `pop_idx` from `add_index`
on the table filtered to the sample's population. -/
structure DSRow where
  sample : Sample
  global_idx : Nat
  pop_idx : Nat
deriving Repr, DecidableEq

/-- Lines 10-20: order the columns by `r`, index them globally, then for each
population of the Counter filter to that population and index within it, and
union the per-population tables. -/
def dsRows (cols : List Sample) (r : String → ℚ) : List DSRow :=
  let indexed := (orderByR r cols).enum
  (counterOf (cols.map (fun c => c.meta.pop))).flatMap (fun pc =>
    ((indexed.filter (fun x => popKeyMatches pc.1 x.2)).enum).map
      (fun y => ⟨y.2.2, y.2.1, y.1⟩))

/-- `global_ht[mt.s]` after `key_by('s')`: look a sample's row up by key. -/
def dsLookup (cols : List Sample) (r : String → ℚ) (c : Sample) :
    Option Downsampling :=
  ((dsRows cols r).find? (fun row => row.sample.s == c.s)).map
    (fun row => ⟨row.global_idx, row.pop_idx⟩)

/-- `_generate_downsamplings_cumulative` (compute_frequencies.py lines 4-21):
returns the columns annotated with their `downsampling` struct and the
cleaned threshold list (requested thresholds united with the population
sizes, deduplicated, kept only up to the total sample count, and sorted). -/
def _generate_downsamplings_cumulative (mt : MatrixTable) (r : String → ℚ)
    (downsamplings : List Nat) :
    (List (Sample × Option Downsampling)) × List Nat :=
  let pop_data := mt.cols.map (fun c => c.meta.pop)
  let pops := counterOf pop_data
  let total := (pops.map Prod.snd).sum
  let ds := sortNatAsc (((downsamplings ++ pops.map Prod.snd).dedup).filter
    (fun x => decide (x ≤ total)))
  (mt.cols.map (fun c => (c, dsLookup mt.cols r c)), ds)

/-- One global downsampling group (lines 194-198): its dict and the predicate
on the annotated `downsampling` struct and the sample's metadata. -/
def dsGlobalGroup (ds : Nat) : Meta × (Downsampling × SampleMeta → Bool) :=
  ([("downsampling", toString ds), ("pop", "global")],
   fun x => decide (x.1.global_idx < ds))

/-- One per-population downsampling group (lines 199-203). -/
def dsPopGroup (ds : Nat) (pc : String × Nat) :
    Meta × (Downsampling × SampleMeta → Bool) :=
  ([("downsampling", toString ds), ("pop", pc.1)],
   fun x => decide (x.1.pop_idx < ds) && (x.2.pop == some pc.1))

/-- The downsampling sample-group filters generate_frequency_data would
append (lines 194-203): one global group per threshold, and one group per
(threshold, population) with the threshold within that population's sample
count. -/
def downsampling_group_filters (downsamplings : List Nat)
    (cutPop : List (String × Nat)) :
    List (Meta × (Downsampling × SampleMeta → Bool)) :=
  downsamplings.map dsGlobalGroup
  ++ downsamplings.flatMap (fun ds =>
      (cutPop.filter (fun pc => decide (ds ≤ pc.2))).map (dsPopGroup ds))

theorem enumFrom_filter_map_snd {α : Type} (P : α → Bool) :
    ∀ (n : Nat) (l : List α),
      ((List.enumFrom n l).filter (fun x => P x.2)).map Prod.snd =
        l.filter P := by
  intro n l
  induction l generalizing n with
  | nil => rfl
  | cons a l ih =>
    rw [List.enumFrom_cons, List.filter_cons, List.filter_cons]
    by_cases h : P a
    · rw [if_pos h, if_pos h, List.map_cons, ih]
    · rw [if_neg (by simpa using h), if_neg (by simpa using h), ih]

theorem sortNatAsc_perm (l : List Nat) : (sortNatAsc l).Perm l :=
  List.perm_insertionSort _ l

theorem sortNatAsc_sorted (l : List Nat) :
    (sortNatAsc l).Sorted (fun a b => a ≤ b) := by
  have htot : IsTotal Nat (fun a b => a ≤ b) := ⟨fun a b => le_total a b⟩
  have htrans : IsTrans Nat (fun a b => a ≤ b) :=
    ⟨fun _ _ _ hab hbc => le_trans hab hbc⟩
  exact List.sorted_insertionSort _ l

/-- C5: `_generate_downsamplings_cumulative` orders the samples by the random
draw and annotates each sample having a defined population with its position
in that order (`global_idx`) and its position among the ordered samples of
its own population (`pop_idx`); the threshold list returned is the requested
thresholds united with the population sizes, deduplicated, kept only up to
the total sample count, and sorted; per-population downsampling groups exist
exactly for (threshold, population) pairs with the threshold within that
population's sample count. -/
theorem generate_downsamplings_cumulative_spec (mt : MatrixTable)
    (r : String → ℚ) (downsamplings : List Nat) :
    ((_generate_downsamplings_cumulative mt r downsamplings).2.Sorted
        (fun a b => a ≤ b) ∧
     (_generate_downsamplings_cumulative mt r downsamplings).2.Nodup ∧
     (∀ x, x ∈ (_generate_downsamplings_cumulative mt r downsamplings).2 ↔
       (x ∈ downsamplings ∨
         x ∈ (counterOf (mt.cols.map (fun c => c.meta.pop))).map Prod.snd) ∧
       x ≤ ((counterOf (mt.cols.map (fun c => c.meta.pop))).map
          Prod.snd).sum)) ∧
    ((_generate_downsamplings_cumulative mt r downsamplings).1 =
      mt.cols.map (fun c => (c, dsLookup mt.cols r c))) ∧
    (∀ c ∈ mt.cols, (mt.cols.map (fun x => x.s)).Nodup →
      c.meta.pop.isSome = true →
      ∃ d, dsLookup mt.cols r c = some d ∧
        (orderByR r mt.cols)[d.global_idx]? = some c ∧
        ((orderByR r mt.cols).filter
          (fun x => x.meta.pop == c.meta.pop))[d.pop_idx]? = some c) ∧
    (∀ (dss : List Nat) (cutPop : List (String × Nat)),
      ∀ x ∈ downsampling_group_filters dss cutPop,
        (∃ ds ∈ dss, x = dsGlobalGroup ds) ∨
        (∃ ds ∈ dss, ∃ pc ∈ cutPop, ds ≤ pc.2 ∧ x = dsPopGroup ds pc)) ∧
    (∀ (dss : List Nat) (cutPop : List (String × Nat)),
      ∀ ds ∈ dss, ∀ pc ∈ cutPop, ds ≤ pc.2 →
        dsPopGroup ds pc ∈ downsampling_group_filters dss cutPop) := by
  have h2 : (_generate_downsamplings_cumulative mt r downsamplings).2 =
      sortNatAsc (((downsamplings ++
        (counterOf (mt.cols.map (fun c => c.meta.pop))).map Prod.snd).dedup).filter
        (fun x => decide (x ≤ ((counterOf (mt.cols.map
          (fun c => c.meta.pop))).map Prod.snd).sum))) := rfl
  refine ⟨⟨?_, ?_, ?_⟩, rfl, ?_, ?_, ?_⟩
  · rw [h2]
    exact sortNatAsc_sorted _
  · rw [h2]
    refine (sortNatAsc_perm _).symm.nodup ?_
    exact List.Nodup.filter _ (List.nodup_dedup _)
  · intro x
    rw [h2, (sortNatAsc_perm _).mem_iff, List.mem_filter, List.mem_dedup,
      List.mem_append]
    simp
  · intro c hc hids hpop
    obtain ⟨p, hp⟩ := Option.isSome_iff_exists.1 hpop
    have hperm : (orderByR r mt.cols).Perm mt.cols :=
      List.perm_insertionSort _ _
    have hcord : c ∈ orderByR r mt.cols := hperm.mem_iff.2 hc
    obtain ⟨g, hg⟩ := List.getElem?_of_mem hcord
    have hge : ((g, c) : Nat × Sample) ∈ (orderByR r mt.cols).enum :=
      List.mem_enum_iff_getElem?.2 hg
    have hkeep : popKeyMatches (some p) c = true := by
      simp [popKeyMatches, hp]
    have hgf : ((g, c) : Nat × Sample) ∈
        ((orderByR r mt.cols).enum).filter
          (fun x => popKeyMatches (some p) x.2) :=
      List.mem_filter.2 ⟨hge, hkeep⟩
    obtain ⟨j, hj⟩ := List.getElem?_of_mem hgf
    have hje : ((j, (g, c)) : Nat × (Nat × Sample)) ∈
        (((orderByR r mt.cols).enum).filter
          (fun x => popKeyMatches (some p) x.2)).enum :=
      List.mem_enum_iff_getElem?.2 hj
    have hkeym : (some p) ∈ (mt.cols.map (fun c => c.meta.pop)).dedup := by
      rw [List.mem_dedup, ← hp]
      exact List.mem_map_of_mem _ hc
    have hrow0 : (⟨c, g, j⟩ : DSRow) ∈ dsRows mt.cols r := by
      rw [dsRows, List.mem_flatMap]
      exact ⟨_, List.mem_map_of_mem _ hkeym, List.mem_map_of_mem _ hje⟩
    have hsome : ((dsRows mt.cols r).find?
        (fun row => row.sample.s == c.s)).isSome = true :=
      List.find?_isSome.2 ⟨_, hrow0, by simp⟩
    obtain ⟨row, hrow⟩ := Option.isSome_iff_exists.1 hsome
    have hrmem : row ∈ dsRows mt.cols r := List.mem_of_find?_eq_some hrow
    rw [dsRows, List.mem_flatMap] at hrmem
    obtain ⟨pc', hpc', hrow'⟩ := hrmem
    rw [List.mem_map] at hrow'
    obtain ⟨y, hy, hmk⟩ := hrow'
    subst hmk
    have hrid : y.2.2.s = c.s := by
      have hps := List.find?_some hrow
      simpa using hps
    rw [List.mem_enum_iff_getElem?] at hy
    have hy2 : y.2 ∈ ((orderByR r mt.cols).enum).filter
        (fun x => popKeyMatches pc'.1 x.2) := List.getElem?_mem hy
    have hy2' := List.mem_filter.1 hy2
    have hord : (orderByR r mt.cols)[y.2.1]? = some y.2.2 :=
      List.mem_enum_iff_getElem?.1 hy2'.1
    have hxcols : y.2.2 ∈ mt.cols :=
      hperm.mem_iff.1 (List.getElem?_mem hord)
    have hxc : y.2.2 = c := List.inj_on_of_nodup_map hids hxcols hc hrid
    have hpckey : pc'.1 = c.meta.pop := by
      have hkp := hy2'.2
      cases hq : pc'.1 with
      | none =>
        rw [hq] at hkp
        simp [popKeyMatches] at hkp
      | some q =>
        rw [hq] at hkp
        have hcq : y.2.2.meta.pop = some q := by
          simpa [popKeyMatches] using hkp
        rw [hxc] at hcq
        rw [hcq]
    have hflm : ((((orderByR r mt.cols).enum).filter
        (fun x => popKeyMatches pc'.1 x.2)).map Prod.snd)[y.1]? =
        some y.2.2 := by
      rw [List.getElem?_map, hy]
      rfl
    have hfsnd : ((((orderByR r mt.cols).enum).filter
        (fun x => popKeyMatches pc'.1 x.2)).map Prod.snd) =
        (orderByR r mt.cols).filter (fun x => popKeyMatches pc'.1 x) :=
      enumFrom_filter_map_snd _ 0 _
    rw [hfsnd] at hflm
    refine ⟨⟨y.2.1, y.1⟩, ?_, ?_, ?_⟩
    · rw [dsLookup, hrow]
      rfl
    · rw [hxc] at hord
      exact hord
    · rw [hpckey, hp] at hflm
      rw [hxc] at hflm
      rw [hp]
      exact hflm
  · intro dss cutPop x hx
    rw [downsampling_group_filters, List.mem_append] at hx
    cases hx with
    | inl h =>
      rw [List.mem_map] at h
      obtain ⟨ds, hds, rfl⟩ := h
      exact Or.inl ⟨ds, hds, rfl⟩
    | inr h =>
      rw [List.mem_flatMap] at h
      obtain ⟨ds, hds, h⟩ := h
      rw [List.mem_map] at h
      obtain ⟨pc, hpc, rfl⟩ := h
      have hpc' := List.mem_filter.1 hpc
      exact Or.inr ⟨ds, hds, pc, hpc'.1, by simpa using hpc'.2, rfl⟩
  · intro dss cutPop ds hds pc hpc hle
    rw [downsampling_group_filters, List.mem_append]
    right
    rw [List.mem_flatMap]
    exact ⟨ds, hds, List.mem_map_of_mem _
      (List.mem_filter.2 ⟨hpc, by simpa using hle⟩)⟩

/-- `cut_data` (lines 164-172): the distinct defined populations with their
counts, the defined sexes, the defined (subpop, pop) pairs, and — when
platform grouping is on — the defined platforms, aggregated over columns. -/
structure CutData where
  pop : List (String × Nat)
  sex : List String
  subpop : List (String × String)
  platform : List String
deriving Repr, DecidableEq

def cutData (cols : List Sample) (calculate_by_platform : Bool) : CutData :=
  { pop := counterOf ((cols.map (fun c => c.meta.pop)).filterMap id),
    sex := ((cols.map (fun c => c.meta.sex)).filterMap id).dedup,
    subpop := (cols.filterMap (fun c =>
      match c.meta.subpop, c.meta.pop with
      | some sp, some p => some (sp, p)
      | _, _ => none)).dedup,
    platform := if calculate_by_platform then
      ((cols.map (fun c => c.meta.qc_platform)).filterMap id).dedup
      else [] }

/-- A sample-group filter: the labelling dict paired with the predicate
selecting the group's samples (comparisons with missing metadata are missing
in Hail, which the membership aggregation treats as false). -/
abbrev GroupFilter := Meta × (SampleMeta → Bool)

/-- `sample_group_filters` (lines 174-192): the global group, then one group
per population, per sex, per sex×population, per subpopulation and — when
platform grouping is on — per platform. -/
def sample_group_filters (cut : CutData) (calculate_by_platform : Bool) :
    List GroupFilter :=
  [(([] : Meta), fun _ => true)]
  ++ cut.pop.map (fun pc =>
      ([("pop", pc.1)], fun m => m.pop == some pc.1))
  ++ cut.sex.map (fun sex =>
      ([("sex", sex)], fun m => m.sex == some sex))
  ++ cut.sex.flatMap (fun sex => cut.pop.map (fun pc =>
      ([("pop", pc.1), ("sex", sex)],
       fun m => (m.sex == some sex) && (m.pop == some pc.1))))
  ++ cut.subpop.map (fun sp =>
      ([("subpop", sp.1), ("pop", sp.2)], fun m => m.subpop == some sp.1))
  ++ (if calculate_by_platform then
      cut.platform.map (fun pl =>
        ([("platform", pl)], fun m => m.qc_platform == some pl))
      else [])

/-- `subgroup_dict['group'] = 'adj'` (line 211): set the `group` key (none of
the subgroup dicts has one, so the pair is appended in insertion order). -/
def metaSetGroupAdj (m : Meta) : Meta :=
  if m.any (fun p => p.1 == "group") then
    m.map (fun p => if p.1 == "group" then (p.1, "adj") else p)
  else m ++ [("group", "adj")]

/-- `list.insert(1, x)` / `arr[:1].extend([x]).extend(arr[1:])`. -/
def insertAt1 {α : Type} (x : α) (l : List α) : List α :=
  l.take 1 ++ [x] ++ l.drop 1

/-- `get_meta_expressions` (lines 207-214): each group's dict with
`group='adj'` set, and `{'group': 'raw'}` inserted at index 1. -/
def get_meta_expressions (sgf : List GroupFilter) : List Meta :=
  insertAt1 [("group", "raw")] (sgf.map (fun g => metaSetGroupAdj g.1))

/-- The final annotation of `get_freq_expressions` (lines 228-234): the array
call statistics specialised to allele index 1, the single non-reference
allele of a bi-allelic site (`AN` is kept whole). -/
def biSelect (cs : CallStatsRaw) : CallStatsBi :=
  { AC := cs.AC.getD 1 0, AF := cs.AF.getD 1 0, AN := cs.AN,
    homozygote_count := cs.homozygote_count.getD 1 0 }

/-- `get_freq_expressions` (lines 216-234) at one variant: per group the call
statistics of the entries that are in the group and pass `adj`, with the raw
(unfiltered) statistics inserted as the second element, all specialised to
the non-reference allele; `pairs` carries each column's `group_membership`
array next to its entry. -/
def get_freq_expressions (pairs : List (List Bool × Entry))
    (nAlleles n_groups : Nat) : List CallStatsBi :=
  (insertAt1 (call_stats nAlleles (pairs.map (fun p => p.2.GT)))
    ((List.range n_groups).map (fun i =>
      call_stats nAlleles ((pairs.filter
        (fun p => p.1.getD i false && p.2.adj)).map
          (fun p => p.2.GT))))).map biSelect

/-- The result of `hl.agg.hist(x, start, stop, bins)`. -/
structure AgeHist where
  bin_edges : List ℚ
  bin_freq : List Nat
  n_smaller : Nat
  n_larger : Nat
deriving Repr, DecidableEq

/-- `hl.agg.hist(x, start, stop, bins)` over the defined values `xs`: `bins`
equal bins on [start, stop] (the last bin closed at `stop`); values below
`start` and above `stop` are counted separately. -/
def agg_hist (start stop : ℚ) (nBins : Nat) (xs : List ℚ) : AgeHist :=
  { bin_edges := (List.range (nBins + 1)).map (fun i : Nat =>
      start + (i : ℚ) * ((stop - start) / (nBins : ℚ))),
    bin_freq := (List.range nBins).map (fun i : Nat =>
      xs.countP (fun a =>
        decide (start + (i : ℚ) * ((stop - start) / (nBins : ℚ)) ≤ a) &&
        (decide (a < start + ((i : ℚ) + 1) * ((stop - start) / (nBins : ℚ))) ||
          (i == nBins - 1 && decide (a ≤ stop))))),
    n_smaller := xs.countP (fun a => decide (a < start)),
    n_larger := xs.countP (fun a => decide (stop < a)) }

/-- `mt.GT.is_het()`: defined and the two alleles differ. -/
def isHet (g : GT) : Bool :=
  match g with
  | some (a, b) => a != b
  | none => false

/-- `mt.GT.is_hom_var()`: defined, both alleles equal and non-reference. -/
def isHomVar (g : GT) : Bool :=
  match g with
  | some (a, b) => (a == b) && decide (0 < a)
  | none => false

/-- The ages entering `age_hist_het` at one variant (line 244): ages of
columns whose entry passes `adj` and is heterozygous (missing ages are
skipped by the histogram aggregator). -/
def hetAges (cols : List Sample) (v : Variant) : List ℚ :=
  ((cols.zip v.entries).filter
    (fun p => p.2.adj && isHet p.2.GT)).filterMap (fun p => p.1.meta.age)

/-- The ages entering `age_hist_hom` at one variant (line 245). -/
def homAges (cols : List Sample) (v : Variant) : List ℚ :=
  ((cols.zip v.entries).filter
    (fun p => p.2.adj && isHomVar p.2.GT)).filterMap (fun p => p.1.meta.age)

/-- The eager Python failures `generate_frequency_data` can raise before any
output exists: line 162 calls `_generate_downsamplings_cumulative` without
its required `downsamplings` argument, and line 251 iterates
`pops_to_remove_for_popmax` even when it is the default `None`. Both are
`TypeError`s in Python. -/
inductive PyError
  | missingDownsamplingsArg
  | noneNotIterable
deriving Repr, DecidableEq

/-- A row of the returned sample table (line 204 / 248). -/
structure SampleRow where
  s : String
  group_membership : List Bool
  project_id : String
  age : Option ℚ
deriving Repr, DecidableEq

/-- A row of the returned variant table (line 262). -/
structure VariantRow where
  locus : Locus
  alleles : List String
  freq : List CallStatsBi
  age_hist_het : Option AgeHist
  age_hist_hom : Option AgeHist
  popmax : Option PopmaxStruct
  faf : Option (List FafStruct)
  project_max : Option (List ProjectMaxEntry)
deriving Repr, DecidableEq

/-- The returned variant table: the global `freq_meta` and the rows. -/
structure VariantTable where
  freq_meta : List Meta
  rows : List VariantRow
deriving Repr, DecidableEq

/-- `generate_frequency_data` (compute_frequencies.py lines 129-262). The
engine's lazy expressions are evaluated directly; the two eager Python
`TypeError`s are `Except.error`s at the same points of the control flow.
`fafFn` stands for the engine's `filtering_allele_frequency`. -/
def generate_frequency_data (fafFn : Nat → Nat → ℚ → ℚ) (mt : MatrixTable)
    (calculate_faf calculate_age_hists calculate_by_platform
      calculate_downsampling calculate_project_max : Bool)
    (pops_to_remove_for_popmax : Option (List String)) :
    Except PyError (VariantTable × List SampleRow) :=
  if calculate_downsampling then Except.error PyError.missingDownsamplingsArg
  else
    let cut := cutData mt.cols calculate_by_platform
    let sgf := sample_group_filters cut calculate_by_platform
    let membership := fun (c : Sample) => sgf.map (fun g => g.2 c.meta)
    let sample_data : List SampleRow := mt.cols.map (fun c =>
      ⟨c.s, membership c, c.meta.project_id, c.meta.age⟩)
    let freq_meta := get_meta_expressions sgf
    match pops_to_remove_for_popmax with
    | none => Except.error PyError.noneNotIterable
    | some rem =>
      let pops := (cut.pop.map Prod.fst).filter (fun p => !rem.contains p)
      Except.ok
        (⟨freq_meta,
          mt.rows.map (fun v =>
            let freq := get_freq_expressions
              ((mt.cols.map membership).zip v.entries) v.alleles.length
              sgf.length
            { locus := v.locus, alleles := v.alleles, freq := freq,
              age_hist_het := if calculate_age_hists then
                some (agg_hist 30 80 10 (hetAges mt.cols v)) else none,
              age_hist_hom := if calculate_age_hists then
                some (agg_hist 30 80 10 (homAges mt.cols v)) else none,
              popmax := popmax_expr freq freq_meta pops,
              faf := if calculate_faf then
                some (faf_expr fafFn freq freq_meta v.locus pops) else none,
              project_max := if calculate_project_max then
                (project_max_expr
                  ((mt.cols.map (fun c => c.meta.project_id)).zip
                    (v.entries.map (fun e => e.GT))) v.alleles 5).bind
                  (fun ls => ls[0]?)
                else none })⟩,
        sample_data)

/-- C7: with `calculate_downsampling=True` the call fails at once with the
missing-required-argument TypeError — line 162 invokes
`_generate_downsamplings_cumulative` without its required `downsamplings`
argument — before any frequency aggregation happens. -/
theorem generate_frequency_data_downsampling_fails
    (fafFn : Nat → Nat → ℚ → ℚ) (mt : MatrixTable)
    (cf cah cbp cpm : Bool) (popsRem : Option (List String)) :
    generate_frequency_data fafFn mt cf cah cbp true cpm popsRem =
      Except.error PyError.missingDownsamplingsArg := rfl

/-- C6: with `pops_to_remove_for_popmax` left at its default `None` the call
raises a TypeError before producing any output tables (line 251 iterates
`None`; if downsampling is also requested, the missing-argument TypeError of
line 162 fires first), and only calls passing an explicit list can return
tables. -/
theorem generate_frequency_data_none_pops_fails
    (fafFn : Nat → Nat → ℚ → ℚ) (mt : MatrixTable)
    (cf cah cbp cds cpm : Bool) :
    (generate_frequency_data fafFn mt cf cah cbp cds cpm none =
      Except.error (if cds then PyError.missingDownsamplingsArg
        else PyError.noneNotIterable)) ∧
    (∀ (popsRem : Option (List String))
        (out : VariantTable × List SampleRow),
      generate_frequency_data fafFn mt cf cah cbp cds cpm popsRem =
        Except.ok out → ∃ rem, popsRem = some rem) := by
  constructor
  · cases cds with
    | true => rfl
    | false => rfl
  · intro popsRem out hok
    cases popsRem with
    | some rem => exact ⟨rem, rfl⟩
    | none =>
      cases cds with
      | true => exact absurd hok (by simp [generate_frequency_data])
      | false => exact absurd hok (by simp [generate_frequency_data])

/-- A concrete two-sample, one-variant matrix for evaluating the embedding at
closed inputs. -/
def mtW : MatrixTable :=
  ⟨[⟨"s1", ⟨some "nfe", some "male", none, none, "proj1", some 45⟩⟩,
    ⟨"s2", ⟨some "afr", some "female", none, none, "proj2", some 62⟩⟩],
   [⟨⟨true⟩, ["A", "T"],
     [⟨some (0, 1), true⟩, ⟨some (1, 1), true⟩]⟩]⟩

/-- A concrete stand-in for the engine's `filtering_allele_frequency`. -/
def fafFnW : Nat → Nat → ℚ → ℚ := fun ac an _ => (ac : ℚ) / (an : ℚ)

/-- C8 counterexample: at this concrete input, with the documented defaults
(`calculate_faf=True`, `calculate_age_hists=True`, remaining flags False,
`pops_to_remove_for_popmax=None`), `generate_frequency_data` fails with an
eager local TypeError raised in its own body (line 251 iterates `None`) —
not a failure propagating from the engine's lazy evaluation. -/
theorem generate_frequency_data_local_error_cex :
    generate_frequency_data fafFnW mtW true true false false false none =
      Except.error PyError.noneNotIterable := rfl

/-- C8 (amended): `generate_frequency_data` has no error handling and no
local recovery, and the only local errors it raises are the two eager
TypeErrors — the missing `downsamplings` argument when
`calculate_downsampling` is set, and the iteration of the `None` default
`pops_to_remove_for_popmax`; every call avoiding both returns a result with
no local failure. -/
theorem generate_frequency_data_error_modes
    (fafFn : Nat → Nat → ℚ → ℚ) (mt : MatrixTable)
    (cf cah cbp cds cpm : Bool) (popsRem : Option (List String)) :
    (∀ e, generate_frequency_data fafFn mt cf cah cbp cds cpm popsRem =
        Except.error e →
      (e = PyError.missingDownsamplingsArg ∧ cds = true) ∨
      (e = PyError.noneNotIterable ∧ popsRem = none)) ∧
    (∀ rem, popsRem = some rem → cds = false →
      ∃ out, generate_frequency_data fafFn mt cf cah cbp cds cpm popsRem =
        Except.ok out) := by
  constructor
  · intro e he
    cases cds with
    | true =>
      have h0 : generate_frequency_data fafFn mt cf cah cbp true cpm
          popsRem = Except.error PyError.missingDownsamplingsArg := rfl
      rw [h0] at he
      injection he with he
      exact Or.inl ⟨he.symm, rfl⟩
    | false =>
      cases popsRem with
      | none =>
        have h0 : generate_frequency_data fafFn mt cf cah cbp false cpm
            none = Except.error PyError.noneNotIterable := rfl
        rw [h0] at he
        injection he with he
        exact Or.inr ⟨he.symm, rfl⟩
      | some rem =>
        have h0 : ∃ out, generate_frequency_data fafFn mt cf cah cbp false
            cpm (some rem) = Except.ok out := ⟨_, rfl⟩
        obtain ⟨out, hout⟩ := h0
        rw [hout] at he
        exact Except.noConfusion he
  · intro rem hrem hcds
    subst hrem
    subst hcds
    exact ⟨_, rfl⟩

/-- The global `freq_meta` generate_frequency_data annotates (line 239). -/
def freqMetaOf (mt : MatrixTable) (cbp : Bool) : List Meta :=
  get_meta_expressions (sample_group_filters (cutData mt.cols cbp) cbp)

/-- The `group_membership` array of one column (line 204). -/
def membershipOf (mt : MatrixTable) (cbp : Bool) (c : Sample) : List Bool :=
  (sample_group_filters (cutData mt.cols cbp) cbp).map (fun g => g.2 c.meta)

/-- The `freq` array of one variant (lines 236, 241). -/
def freqOf (mt : MatrixTable) (cbp : Bool) (v : Variant) : List CallStatsBi :=
  get_freq_expressions ((mt.cols.map (membershipOf mt cbp)).zip v.entries)
    v.alleles.length (sample_group_filters (cutData mt.cols cbp) cbp).length

/-- The popmax population set (lines 250-251) for an explicit removal list. -/
def popsOf (mt : MatrixTable) (cbp : Bool) (rem : List String) : List String :=
  ((cutData mt.cols cbp).pop.map Prod.fst).filter (fun p => !rem.contains p)

/-- One row of the returned variant table on the success path. -/
def variantRowOf (fafFn : Nat → Nat → ℚ → ℚ) (mt : MatrixTable)
    (cf cah cbp cpm : Bool) (rem : List String) (v : Variant) : VariantRow :=
  { locus := v.locus, alleles := v.alleles, freq := freqOf mt cbp v,
    age_hist_het := if cah then
      some (agg_hist 30 80 10 (hetAges mt.cols v)) else none,
    age_hist_hom := if cah then
      some (agg_hist 30 80 10 (homAges mt.cols v)) else none,
    popmax := popmax_expr (freqOf mt cbp v) (freqMetaOf mt cbp)
      (popsOf mt cbp rem),
    faf := if cf then
      some (faf_expr fafFn (freqOf mt cbp v) (freqMetaOf mt cbp) v.locus
        (popsOf mt cbp rem)) else none,
    project_max := if cpm then
      (project_max_expr
        ((mt.cols.map (fun c => c.meta.project_id)).zip
          (v.entries.map (fun e => e.GT))) v.alleles 5).bind
        (fun ls => ls[0]?)
      else none }

/-- One row of the returned sample table on the success path. -/
def sampleRowOf (mt : MatrixTable) (cbp : Bool) (c : Sample) : SampleRow :=
  ⟨c.s, membershipOf mt cbp c, c.meta.project_id, c.meta.age⟩

/-- On the success path (no downsampling, explicit removal list) the call
returns exactly the two tables built from the definitions above. -/
theorem generate_frequency_data_ok (fafFn : Nat → Nat → ℚ → ℚ)
    (mt : MatrixTable) (cf cah cbp cpm : Bool) (rem : List String) :
    generate_frequency_data fafFn mt cf cah cbp false cpm (some rem) =
      Except.ok
        (⟨freqMetaOf mt cbp,
          mt.rows.map (variantRowOf fafFn mt cf cah cbp cpm rem)⟩,
         mt.cols.map (sampleRowOf mt cbp)) := rfl

theorem insertAt1_cons {α : Type} (x a : α) (t : List α) :
    insertAt1 x (a :: t) = a :: x :: t := by
  simp [insertAt1]

theorem insertAt1_length {α : Type} (x : α) (l : List α) :
    (insertAt1 x l).length = l.length + 1 := by
  cases l with
  | nil => rfl
  | cons a t => rw [insertAt1_cons]; simp

theorem insertAt1_getElem?_succ {α : Type} (x : α) (l : List α) (k : Nat) :
    (insertAt1 x l)[k + 2]? = l[k + 1]? := by
  cases l with
  | nil => simp [insertAt1]
  | cons a t =>
    rw [insertAt1_cons, List.getElem?_cons_succ, List.getElem?_cons_succ,
      List.getElem?_cons_succ]

theorem sample_group_filters_ne_nil (cut : CutData) (b : Bool) :
    sample_group_filters cut b ≠ [] := by
  rw [sample_group_filters]
  simp

theorem get_meta_expressions_facts (sgf : List GroupFilter) (hs : sgf ≠ []) :
    (get_meta_expressions sgf).length = sgf.length + 1 ∧
    (get_meta_expressions sgf)[1]? = some [("group", "raw")] ∧
    (∀ gf0, sgf[0]? = some gf0 →
      (get_meta_expressions sgf)[0]? = some (metaSetGroupAdj gf0.1)) ∧
    (∀ k gf, sgf[k + 1]? = some gf →
      (get_meta_expressions sgf)[k + 2]? = some (metaSetGroupAdj gf.1)) := by
  obtain ⟨g0, t, rfl⟩ : ∃ g0 t, sgf = g0 :: t := by
    cases sgf with
    | nil => exact absurd rfl hs
    | cons a t => exact ⟨a, t, rfl⟩
  rw [get_meta_expressions, List.map_cons, insertAt1_cons]
  refine ⟨by simp, by simp, ?_, ?_⟩
  · intro gf0 h0
    rw [List.getElem?_cons_zero] at h0
    injection h0 with h0
    subst h0
    exact List.getElem?_cons_zero
  · intro k gf hk
    rw [List.getElem?_cons_succ] at hk
    rw [List.getElem?_cons_succ, List.getElem?_cons_succ, List.getElem?_map,
      hk]
    rfl

theorem get_freq_expressions_facts (pairs : List (List Bool × Entry))
    (nAlleles n : Nat) (hn : 0 < n) :
    (get_freq_expressions pairs nAlleles n).length = n + 1 ∧
    (get_freq_expressions pairs nAlleles n)[0]? =
      some (biSelect (call_stats nAlleles ((pairs.filter
        (fun p => p.1.getD 0 false && p.2.adj)).map (fun p => p.2.GT)))) ∧
    (get_freq_expressions pairs nAlleles n)[1]? =
      some (biSelect (call_stats nAlleles (pairs.map (fun p => p.2.GT)))) ∧
    (∀ k, k + 1 < n →
      (get_freq_expressions pairs nAlleles n)[k + 2]? =
        some (biSelect (call_stats nAlleles ((pairs.filter
          (fun p => p.1.getD (k + 1) false && p.2.adj)).map
            (fun p => p.2.GT))))) := by
  obtain ⟨m, rfl⟩ : ∃ m, n = m + 1 := ⟨n - 1, by omega⟩
  rw [get_freq_expressions, List.range_succ_eq_map, List.map_cons,
    insertAt1_cons, List.map_cons, List.map_cons]
  refine ⟨by simp, by simp, by simp, ?_⟩
  intro k hk
  rw [List.getElem?_cons_succ, List.getElem?_cons_succ, List.getElem?_map,
    List.getElem?_map, List.getElem?_map,
    List.getElem?_range (show k < m by omega)]
  rfl

theorem zip_map_snd_gts (cols : List Sample) (entries : List Entry)
    (f : Sample → List Bool) :
    ((cols.map f).zip entries).map (fun p => p.2.GT) =
      (cols.zip entries).map (fun p => p.2.GT) := by
  rw [List.zip_map_left, List.map_map]
  rfl

theorem zip_map_filter_gts (cols : List Sample) (entries : List Entry)
    (f : Sample → List Bool) (q : List Bool → Entry → Bool)
    (q' : Sample → Entry → Bool) (hq : ∀ c e, q (f c) e = q' c e) :
    (((cols.map f).zip entries).filter (fun p => q p.1 p.2)).map
      (fun p => p.2.GT) =
    ((cols.zip entries).filter (fun p => q' p.1 p.2)).map
      (fun p => p.2.GT) := by
  rw [List.zip_map_left, List.filter_map, List.map_map]
  have hfil : (cols.zip entries).filter
      ((fun p : List Bool × Entry => q p.1 p.2) ∘
        Prod.map f id) =
      (cols.zip entries).filter (fun p => q' p.1 p.2) := by
    apply List.filter_congr
    intro p _
    exact hq p.1 p.2
  rw [hfil]
  rfl

theorem sample_group_filters_getElem0 (cut : CutData) (b : Bool) :
    (sample_group_filters cut b)[0]? =
      some ((([] : Meta), fun _ => true) : GroupFilter) := by
  rw [sample_group_filters, List.singleton_append]
  simp only [List.cons_append]
  rw [List.getElem?_cons_zero]

theorem membership_getD (mt : MatrixTable) (cbp : Bool) (c : Sample)
    (i : Nat) (gf : GroupFilter)
    (hgf : (sample_group_filters (cutData mt.cols cbp) cbp)[i]? = some gf) :
    (membershipOf mt cbp c).getD i false = gf.2 c.meta := by
  rw [membershipOf, List.getD_eq_getElem?_getD, List.getElem?_map, hgf]
  rfl

theorem variantRowOf_freq (fafFn : Nat → Nat → ℚ → ℚ) (mt : MatrixTable)
    (cf cah cbp cpm : Bool) (rem : List String) (v : Variant) :
    (variantRowOf fafFn mt cf cah cbp cpm rem v).freq = freqOf mt cbp v := rfl

/-- C2: on the output of generate_frequency_data the per-variant `freq` array
and the global `freq_meta` array have the same length; index 0 holds the
`adj`-filtered global group, index 1 the raw (unfiltered) call statistics
with meta `{'group': 'raw'}`, and every further index `j + 2` pairs the meta
of sample-group filter `j + 1` (its dict with `group='adj'` set) with the
call statistics aggregated over exactly the samples of that filter whose
entry passes `adj`. -/
theorem generate_frequency_data_freq_meta_aligned
    (fafFn : Nat → Nat → ℚ → ℚ) (mt : MatrixTable)
    (cf cah cbp cpm : Bool) (rem : List String)
    (vt : VariantTable) (st : List SampleRow)
    (hok : generate_frequency_data fafFn mt cf cah cbp false cpm
      (some rem) = Except.ok (vt, st)) :
    vt.freq_meta = freqMetaOf mt cbp ∧
    vt.freq_meta.length =
      (sample_group_filters (cutData mt.cols cbp) cbp).length + 1 ∧
    vt.freq_meta[0]? = some [("group", "adj")] ∧
    vt.freq_meta[1]? = some [("group", "raw")] ∧
    vt.rows.length = mt.rows.length ∧
    (∀ (k : Nat) (v : Variant), mt.rows[k]? = some v →
      ∃ row : VariantRow, vt.rows[k]? = some row ∧
      row.freq.length = vt.freq_meta.length ∧
      row.freq[0]? = some (biSelect (call_stats v.alleles.length
        (((mt.cols.zip v.entries).filter (fun p => p.2.adj)).map
          (fun p => p.2.GT)))) ∧
      row.freq[1]? = some (biSelect (call_stats v.alleles.length
        ((mt.cols.zip v.entries).map (fun p => p.2.GT)))) ∧
      (∀ j gf, (sample_group_filters (cutData mt.cols cbp) cbp)[j + 1]? =
          some gf →
        vt.freq_meta[j + 2]? = some (metaSetGroupAdj gf.1) ∧
        row.freq[j + 2]? = some (biSelect (call_stats v.alleles.length
          (((mt.cols.zip v.entries).filter
            (fun p => gf.2 p.1.meta && p.2.adj)).map
              (fun p => p.2.GT)))))) := by
  rw [generate_frequency_data_ok] at hok
  injection hok with hok
  have hvt : vt = ⟨freqMetaOf mt cbp,
      mt.rows.map (variantRowOf fafFn mt cf cah cbp cpm rem)⟩ :=
    (congrArg Prod.fst hok).symm
  subst hvt
  have hne := sample_group_filters_ne_nil (cutData mt.cols cbp) cbp
  have mf := get_meta_expressions_facts
    (sample_group_filters (cutData mt.cols cbp) cbp) hne
  have hn : 0 < (sample_group_filters (cutData mt.cols cbp) cbp).length :=
    List.length_pos.2 hne
  refine ⟨rfl, mf.1, ?_, mf.2.1, List.length_map _ _, ?_⟩
  · exact mf.2.2.1 _ (sample_group_filters_getElem0 _ _)
  · intro k v hkv
    have hrow : (mt.rows.map
        (variantRowOf fafFn mt cf cah cbp cpm rem))[k]? =
        some (variantRowOf fafFn mt cf cah cbp cpm rem v) := by
      rw [List.getElem?_map, hkv]
      rfl
    refine ⟨_, hrow, ?_, ?_, ?_, ?_⟩
    · have ff := get_freq_expressions_facts
        ((mt.cols.map (membershipOf mt cbp)).zip v.entries)
        v.alleles.length _ hn
      rw [variantRowOf_freq, freqOf]
      exact ff.1.trans mf.1.symm
    · have ff := get_freq_expressions_facts
        ((mt.cols.map (membershipOf mt cbp)).zip v.entries)
        v.alleles.length _ hn
      have e0 := zip_map_filter_gts mt.cols v.entries (membershipOf mt cbp)
        (fun b e => b.getD 0 false && e.adj) (fun _ e => e.adj)
        (fun c e => by
          show ((membershipOf mt cbp c).getD 0 false && e.adj) = e.adj
          rw [membership_getD mt cbp c 0 (([], fun _ => true) : GroupFilter)
            (sample_group_filters_getElem0 _ _)]
          exact Bool.true_and _)
      rw [variantRowOf_freq, freqOf]
      exact ff.2.1.trans (by rw [e0])
    · have ff := get_freq_expressions_facts
        ((mt.cols.map (membershipOf mt cbp)).zip v.entries)
        v.alleles.length _ hn
      have e1 := zip_map_snd_gts mt.cols v.entries (membershipOf mt cbp)
      rw [variantRowOf_freq, freqOf]
      exact ff.2.2.1.trans (by rw [e1])
    · intro j gf hgf
      have hjlt : j + 1 <
          (sample_group_filters (cutData mt.cols cbp) cbp).length := by
        obtain ⟨hlt, -⟩ := List.getElem?_eq_some.1 hgf
        exact hlt
      have ff := get_freq_expressions_facts
        ((mt.cols.map (membershipOf mt cbp)).zip v.entries)
        v.alleles.length _ hn
      refine ⟨mf.2.2.2 j gf hgf, ?_⟩
      have ej := zip_map_filter_gts mt.cols v.entries (membershipOf mt cbp)
        (fun b e => b.getD (j + 1) false && e.adj)
        (fun c e => gf.2 c.meta && e.adj)
        (fun c e => by
          show ((membershipOf mt cbp c).getD (j + 1) false && e.adj) =
            (gf.2 c.meta && e.adj)
          rw [membership_getD mt cbp c (j + 1) gf hgf])
      rw [variantRowOf_freq, freqOf]
      exact (ff.2.2.2 j hjlt).trans (by rw [ej])

/-- The variant table the concrete matrix `mtW` produces. -/
def vtW : VariantTable :=
  ⟨freqMetaOf mtW false,
   mtW.rows.map (variantRowOf fafFnW mtW true true false false [])⟩

/-- The sample table the concrete matrix `mtW` produces. -/
def stW : List SampleRow := mtW.cols.map (sampleRowOf mtW false)

theorem generate_frequency_data_freq_meta_aligned_witness :
    vtW.freq_meta = freqMetaOf mtW false ∧
    vtW.freq_meta.length =
      (sample_group_filters (cutData mtW.cols false) false).length + 1 ∧
    vtW.freq_meta[0]? = some [("group", "adj")] ∧
    vtW.freq_meta[1]? = some [("group", "raw")] ∧
    vtW.rows.length = mtW.rows.length ∧
    (∀ (k : Nat) (v : Variant), mtW.rows[k]? = some v →
      ∃ row : VariantRow, vtW.rows[k]? = some row ∧
      row.freq.length = vtW.freq_meta.length ∧
      row.freq[0]? = some (biSelect (call_stats v.alleles.length
        (((mtW.cols.zip v.entries).filter (fun p => p.2.adj)).map
          (fun p => p.2.GT)))) ∧
      row.freq[1]? = some (biSelect (call_stats v.alleles.length
        ((mtW.cols.zip v.entries).map (fun p => p.2.GT)))) ∧
      (∀ j gf, (sample_group_filters (cutData mtW.cols false) false)[j + 1]? =
          some gf →
        vtW.freq_meta[j + 2]? = some (metaSetGroupAdj gf.1) ∧
        row.freq[j + 2]? = some (biSelect (call_stats v.alleles.length
          (((mtW.cols.zip v.entries).filter
            (fun p => gf.2 p.1.meta && p.2.adj)).map
              (fun p => p.2.GT)))))) :=
  generate_frequency_data_freq_meta_aligned fafFnW mtW true true false false
    [] vtW stW (generate_frequency_data_ok fafFnW mtW true true false false [])

theorem agg_hist_bin_freq_length (start stop : ℚ) (nBins : Nat)
    (xs : List ℚ) :
    (agg_hist start stop nBins xs).bin_freq.length = nBins := by
  have h0 : (agg_hist start stop nBins xs).bin_freq =
      (List.range nBins).map (fun i : Nat =>
        xs.countP (fun a =>
          decide (start + (i : ℚ) * ((stop - start) / (nBins : ℚ)) ≤ a) &&
          (decide (a < start + ((i : ℚ) + 1) *
              ((stop - start) / (nBins : ℚ))) ||
            (i == nBins - 1 && decide (a ≤ stop))))) := rfl
  rw [h0, List.length_map, List.length_range]

theorem variantRowOf_age_het (fafFn : Nat → Nat → ℚ → ℚ) (mt : MatrixTable)
    (cf cah cbp cpm : Bool) (rem : List String) (v : Variant) :
    (variantRowOf fafFn mt cf cah cbp cpm rem v).age_hist_het =
      if cah then some (agg_hist 30 80 10 (hetAges mt.cols v)) else none :=
  rfl

theorem variantRowOf_age_hom (fafFn : Nat → Nat → ℚ → ℚ) (mt : MatrixTable)
    (cf cah cbp cpm : Bool) (rem : List String) (v : Variant) :
    (variantRowOf fafFn mt cf cah cbp cpm rem v).age_hist_hom =
      if cah then some (agg_hist 30 80 10 (homAges mt.cols v)) else none :=
  rfl

theorem variantRowOf_locus (fafFn : Nat → Nat → ℚ → ℚ) (mt : MatrixTable)
    (cf cah cbp cpm : Bool) (rem : List String) (v : Variant) :
    (variantRowOf fafFn mt cf cah cbp cpm rem v).locus = v.locus := rfl

theorem variantRowOf_alleles (fafFn : Nat → Nat → ℚ → ℚ) (mt : MatrixTable)
    (cf cah cbp cpm : Bool) (rem : List String) (v : Variant) :
    (variantRowOf fafFn mt cf cah cbp cpm rem v).alleles = v.alleles := rfl

theorem variantRowOf_popmax (fafFn : Nat → Nat → ℚ → ℚ) (mt : MatrixTable)
    (cf cah cbp cpm : Bool) (rem : List String) (v : Variant) :
    (variantRowOf fafFn mt cf cah cbp cpm rem v).popmax =
      popmax_expr (freqOf mt cbp v) (freqMetaOf mt cbp)
        (popsOf mt cbp rem) := by
  rw [variantRowOf]

/-- C9: when `calculate_age_hists` is set, every returned variant row carries
exactly two age histograms over the range 30 to 80 with 10 bins — one over
the ages of samples whose entry passes `adj` and is heterozygous, one over
those passing `adj` and homozygous-variant. -/
theorem generate_frequency_data_age_hists
    (fafFn : Nat → Nat → ℚ → ℚ) (mt : MatrixTable)
    (cf cbp cpm : Bool) (rem : List String)
    (vt : VariantTable) (st : List SampleRow)
    (hok : generate_frequency_data fafFn mt cf true cbp false cpm
      (some rem) = Except.ok (vt, st)) :
    (∀ (k : Nat) (v : Variant), mt.rows[k]? = some v →
      ∃ row : VariantRow, vt.rows[k]? = some row ∧
        row.age_hist_het = some (agg_hist 30 80 10 (hetAges mt.cols v)) ∧
        row.age_hist_hom = some (agg_hist 30 80 10 (homAges mt.cols v))) ∧
    (∀ xs : List ℚ, (agg_hist 30 80 10 xs).bin_freq.length = 10 ∧
      (agg_hist 30 80 10 xs).bin_edges =
        [30, 35, 40, 45, 50, 55, 60, 65, 70, 75, 80]) := by
  rw [generate_frequency_data_ok] at hok
  injection hok with hok
  have hvt : vt = ⟨freqMetaOf mt cbp,
      mt.rows.map (variantRowOf fafFn mt cf true cbp cpm rem)⟩ :=
    (congrArg Prod.fst hok).symm
  subst hvt
  constructor
  · intro k v hkv
    have hrow : (mt.rows.map
        (variantRowOf fafFn mt cf true cbp cpm rem))[k]? =
        some (variantRowOf fafFn mt cf true cbp cpm rem v) := by
      rw [List.getElem?_map, hkv]
      rfl
    refine ⟨_, hrow, ?_, ?_⟩
    · rw [variantRowOf_age_het, if_pos rfl]
    · rw [variantRowOf_age_hom, if_pos rfl]
  · intro xs
    constructor
    · exact agg_hist_bin_freq_length 30 80 10 xs
    · have h1 : (agg_hist 30 80 10 xs).bin_edges =
          (List.range (10 + 1)).map (fun i : Nat =>
            (30 : ℚ) + (i : ℚ) * (((80 : ℚ) - 30) / ((10 : Nat) : ℚ))) := rfl
      rw [h1]
      norm_num [List.range_succ]

theorem generate_frequency_data_age_hists_witness :
    (∀ (k : Nat) (v : Variant), mtW.rows[k]? = some v →
      ∃ row : VariantRow, vtW.rows[k]? = some row ∧
        row.age_hist_het = some (agg_hist 30 80 10 (hetAges mtW.cols v)) ∧
        row.age_hist_hom = some (agg_hist 30 80 10 (homAges mtW.cols v))) ∧
    (∀ xs : List ℚ, (agg_hist 30 80 10 xs).bin_freq.length = 10 ∧
      (agg_hist 30 80 10 xs).bin_edges =
        [30, 35, 40, 45, 50, 55, 60, 65, 70, 75, 80]) :=
  generate_frequency_data_age_hists fafFnW mtW true false false [] vtW stW
    (generate_frequency_data_ok fafFnW mtW true true false false [])

/-- C10: on its success path generate_frequency_data returns exactly two
tables — a variant-level table with one row per variant carrying the
frequency and derived annotation fields, and a sample-level table with one
row per sample carrying the group-membership fields; with downsampling
enabled the call never returns tables at all. -/
theorem generate_frequency_data_two_tables
    (fafFn : Nat → Nat → ℚ → ℚ) (mt : MatrixTable)
    (cf cah cbp cpm : Bool) (rem : List String) :
    (∃ (vt : VariantTable) (st : List SampleRow),
      generate_frequency_data fafFn mt cf cah cbp false cpm (some rem) =
        Except.ok (vt, st) ∧
      vt.rows.length = mt.rows.length ∧
      st.length = mt.cols.length ∧
      (∀ (j : Nat) (c : Sample), mt.cols[j]? = some c →
        st[j]? = some ⟨c.s, membershipOf mt cbp c, c.meta.project_id,
          c.meta.age⟩) ∧
      (∀ (k : Nat) (v : Variant), mt.rows[k]? = some v →
        ∃ row : VariantRow, vt.rows[k]? = some row ∧
          row.locus = v.locus ∧ row.alleles = v.alleles ∧
          row.freq = freqOf mt cbp v ∧
          row.popmax = popmax_expr (freqOf mt cbp v) (freqMetaOf mt cbp)
            (popsOf mt cbp rem))) ∧
    (∀ (popsRem : Option (List String)),
      generate_frequency_data fafFn mt cf cah cbp true cpm popsRem =
        Except.error PyError.missingDownsamplingsArg) := by
  constructor
  · refine ⟨_, _, generate_frequency_data_ok fafFn mt cf cah cbp cpm rem,
      List.length_map _ _, List.length_map _ _, ?_, ?_⟩
    · intro j c hjc
      rw [List.getElem?_map, hjc]
      rfl
    · intro k v hkv
      refine ⟨variantRowOf fafFn mt cf cah cbp cpm rem v, ?_,
        variantRowOf_locus fafFn mt cf cah cbp cpm rem v,
        variantRowOf_alleles fafFn mt cf cah cbp cpm rem v,
        variantRowOf_freq fafFn mt cf cah cbp cpm rem v,
        variantRowOf_popmax fafFn mt cf cah cbp cpm rem v⟩
      rw [List.getElem?_map, hkv]
      rfl
  · intro popsRem
    rfl

/-- Concrete evaluation: with two eligible populations the popmax struct picks
the entry with the larger `AF` and carries its population. -/
theorem popmax_expr_eval :
    popmax_expr [⟨2, 2, 4, 1⟩, ⟨1, 1, 4, 0⟩]
      [[("group", "adj"), ("pop", "nfe")], [("group", "adj"), ("pop", "afr")]]
      ["nfe", "afr"] =
      some ⟨2, 2, 4, 1, some "nfe"⟩ := by decide

/-- Concrete evaluation: the global `adj` group yields one faf struct with
both confidence levels applied to its `AC` and `AN`. -/
theorem faf_expr_eval :
    faf_expr (fun ac _ _ => (ac : ℚ)) [⟨2, 2, 4, 1⟩]
      [[("group", "adj")]] ⟨true⟩ [] =
      [⟨[("group", "adj")], 2, 2⟩] := by decide
